import Mathlib

/-!
Verification development for `node-object-sync`: an in-memory object is
wrapped in a proxy whose `set` / `deleteProperty` traps apply the mutation
and then invoke a save strategy (`sync`, `async`, or debounced `lazy`) that
serializes the whole content through a pluggable codec and writes it to a
single file (`src/index.ts`, `src/timer.ts`).

The embedding below models:
* the live value as an association list of string keys to numeric values,
  with a set of frozen (non-writable / non-configurable) keys so that
  `Reflect.set` / `Reflect.deleteProperty` can report failure;
* the filesystem as a record of existing directories and a file map, where
  `writeFileSync` / `mkdirSync` fail when the parent directory is missing;
* the codec as a `stringify` / `parse` pair (parse may fail: `FormatError`);
* the constructor bootstrap, the proxy traps, the three save strategies and
  the debounce timer, each translated from the corresponding source lines.
-/

deriving instance DecidableEq for Except

namespace ObjectSync

/-- Field names of the wrapped object. -/
abbrev Key := String

/-- The live value: an ordered association list of fields, mirroring a plain
JS object with string keys and (for the model) numeric values. -/
abbrev Obj := List (Key × Nat)

/-- A filesystem path, as a list of components; `path.dirname` drops the
last component. -/
abbrev Path := List String

/-- `path.dirname`: the parent of a path. -/
def dirname (p : Path) : Path := p.dropLast

/-- Filesystem errors (`IOError` in the spec's taxonomy): a write or mkdir
fails when the parent directory does not exist. -/
inductive IOErr where
  | noDir (p : Path)
  deriving DecidableEq, Repr

/-- Bootstrap errors: filesystem failures or codec parse failures
(`FormatError`). -/
inductive BootErr where
  | io (e : IOErr)
  | format (e : String)
  deriving DecidableEq, Repr

/-- The filesystem state: the set of existing directories and the file
contents, keyed by path. -/
structure FS where
  dirs : List Path
  files : List (Path × String)
  deriving DecidableEq, Repr

/-- Associative update used by the file map: overwrite the entry for `p`,
appending it if absent. -/
def setEntry (p : Path) (s : String) : List (Path × String) → List (Path × String)
  | [] => [(p, s)]
  | (q, t) :: rest => if q = p then (p, s) :: rest else (q, t) :: setEntry p s rest

/-- `fs.readFileSync`: the contents of the file at `p`, if present. -/
def FS.readFile (fs : FS) (p : Path) : Option String :=
  fs.files.lookup p

/-- `fs.existsSync`: true when `p` names an existing directory or file. -/
def FS.existsP (fs : FS) (p : Path) : Bool :=
  decide (p ∈ fs.dirs) || (fs.files.lookup p).isSome

/-- `fs.writeFileSync` (and the promise `fsp.writeFile`): replaces the
contents of `p` in full; fails with an `IOErr` when the parent directory
does not exist. -/
def FS.writeFile (fs : FS) (p : Path) (s : String) : Except IOErr FS :=
  if dirname p ∈ fs.dirs then
    .ok { fs with files := setEntry p s fs.files }
  else
    .error (.noDir (dirname p))

/-- `fs.mkdirSync` without `recursive`: creates a single directory level;
fails when its own parent is missing. -/
def FS.mkdir (fs : FS) (p : Path) : Except IOErr FS :=
  if dirname p ∈ fs.dirs then
    .ok { fs with dirs := p :: fs.dirs }
  else
    .error (.noDir (dirname p))

/-- The pluggable format: `parse` / `stringify` pair (default `JSON` in the
source; kept abstract here, with a concrete executable instance below for
witnesses). -/
structure Codec where
  stringify : Obj → String
  parse : String → Except String Obj

/-- `Reflect.get` on the proxy target: field lookup. -/
def reflectGet (c : Obj) (k : Key) : Option Nat :=
  c.lookup k

/-- `Reflect.has` on the proxy target: existence check. -/
def reflectHas (c : Obj) (k : Key) : Bool :=
  (c.lookup k).isSome

/-- `Reflect.ownKeys` on the proxy target: key enumeration. -/
def reflectOwnKeys (c : Obj) : List Key :=
  c.map Prod.fst

/-- Associative update of a field, keeping insertion order (JS property
order): overwrite in place, append if absent. -/
def setField (k : Key) (v : Nat) : Obj → Obj
  | [] => [(k, v)]
  | (k', v') :: rest => if k' = k then (k, v) :: rest else (k', v') :: setField k v rest

/-- Field removal, for `delete`. -/
def delField (k : Key) (c : Obj) : Obj :=
  c.filter (fun p => p.1 ≠ k)

/-- `Reflect.set`: reports `false` and leaves the object unchanged for a
non-writable (frozen) key, otherwise updates the field and reports `true`. -/
def reflectSet (frozen : List Key) (c : Obj) (k : Key) (v : Nat) : Bool × Obj :=
  if k ∈ frozen then (false, c) else (true, setField k v c)

/-- `Reflect.deleteProperty`: reports `false` and leaves the object
unchanged for a non-configurable (frozen) key, otherwise removes the field
and reports `true`. -/
def reflectDelete (frozen : List Key) (c : Obj) (k : Key) : Bool × Obj :=
  if k ∈ frozen then (false, c) else (true, delField k c)

/-- A mutation performed through the wrapped view: a field assignment or a
field deletion. -/
inductive Mut where
  | set (k : Key) (v : Nat)
  | del (k : Key)
  deriving DecidableEq, Repr

/-- The underlying `Reflect` operation a mutation performs: the reported
outcome together with the resulting object. -/
def applyMut (frozen : List Key) : Mut → Obj → Bool × Obj
  | .set k v, c => reflectSet frozen c k v
  | .del k, c => reflectDelete frozen c k

/-- The constructor bootstrap (`ObjectSync` private constructor, lines
68–76): check existence, create the parent directory when `recursive` is
set and both file and parent are missing, then either parse the existing
file into the content or write the stringified default content. A thrown
error (`IOErr` from mkdir/write, parse failure) aborts construction: no
content/filesystem pair is produced. -/
def bootstrap (codec : Codec) (target : Obj) (fileLocation : Path)
    (recursive : Bool) (fs : FS) : Except BootErr (Obj × FS) :=
  let ex := fs.existsP fileLocation
  let step1 : Except BootErr FS :=
    if recursive && !ex && !(fs.existsP (dirname fileLocation)) then
      (fs.mkdir (dirname fileLocation)).mapError .io
    else
      .ok fs
  match step1 with
  | .error e => .error e
  | .ok fs1 =>
    if ex then
      match fs1.readFile fileLocation with
      | some s =>
        match codec.parse s with
        | .ok c => .ok (c, fs1)
        | .error e => .error (.format e)
      | none => .error (.io (.noDir fileLocation))
    else
      match fs1.writeFile fileLocation (codec.stringify target) with
      | .ok fs2 => .ok (target, fs2)
      | .error e => .error (.io e)

/-- `saveSync` (lines 132–135): serialize the current content in full and
write it synchronously; a write failure propagates to the caller. -/
def saveSync (codec : Codec) (fileLocation : Path) (content : Obj) (fs : FS) :
    Except IOErr FS :=
  fs.writeFile fileLocation (codec.stringify content)

/-- `saveAsync` (lines 138–144): serialize the current content and start a
write whose failure is caught and discarded (`try … catch {}`); the result
type carries no error, so no exception can reach the caller and no state
records the failure. -/
def saveAsync (codec : Codec) (fileLocation : Path) (content : Obj) (fs : FS) : FS :=
  match fs.writeFile fileLocation (codec.stringify content) with
  | .ok fs' => fs'
  | .error _ => fs

/-- One mutation through the proxy under the `sync` strategy (`set` /
`deleteProperty` trap followed by `saveSync`): the in-memory mutation is
applied first; the write's outcome is returned alongside, so a failed write
surfaces as an error after the content has already changed. -/
def mutateSync (codec : Codec) (frozen : List Key) (fileLocation : Path)
    (m : Mut) (c : Obj) (fs : FS) : (Bool × Obj) × Except IOErr FS :=
  let r := applyMut frozen m c
  (r, saveSync codec fileLocation r.2 fs)

/-- One mutation through the proxy under the `async` strategy (`set` /
`deleteProperty` trap followed by `saveAsync`): always returns normally —
the type has no error component, mirroring the silenced write. -/
def mutateAsync (codec : Codec) (frozen : List Key) (fileLocation : Path)
    (m : Mut) (c : Obj) (fs : FS) : Bool × Obj × FS :=
  let r := applyMut frozen m c
  (r.1, r.2, saveAsync codec fileLocation r.2 fs)

/-- A sequence of mutations under the `sync` strategy; the run stops with
the thrown error if any write fails. -/
def runSync (codec : Codec) (frozen : List Key) (fileLocation : Path) :
    List Mut → Obj → FS → Except IOErr (Obj × FS)
  | [], c, fs => .ok (c, fs)
  | m :: ms, c, fs =>
    match mutateSync codec frozen fileLocation m c fs with
    | (r, .ok fs') => runSync codec frozen fileLocation ms r.2 fs'
    | (_, .error e) => .error e

/-- An operation performed on the wrapped view. -/
inductive Op where
  | get (k : Key)
  | has (k : Key)
  | keys
  | set (k : Key) (v : Nat)
  | del (k : Key)
  deriving DecidableEq, Repr

/-- The result an operation on the wrapped view reports to the caller. -/
inductive Res where
  | val (o : Option Nat)
  | bool (b : Bool)
  | keyList (l : List Key)
  deriving DecidableEq, Repr

/-- The proxy handler (lines 110–124), instrumented with the number of save
strategy invocations and abstracted over the bound strategy `save`:
`get` / `has` / `ownKeys` are the plain `Reflect` operations and touch
nothing; `set` / `deleteProperty` apply the mutation, invoke the strategy
once on the mutated content, and report the `Reflect` outcome. -/
def viewStep (save : Obj → FS → FS) (frozen : List Key) (op : Op) (c : Obj)
    (fs : FS) : Res × Obj × FS × Nat :=
  match op with
  | .get k => (.val (reflectGet c k), c, fs, 0)
  | .has k => (.bool (reflectHas c k), c, fs, 0)
  | .keys => (.keyList (reflectOwnKeys c), c, fs, 0)
  | .set k v =>
    let r := reflectSet frozen c k v
    (.bool r.1, r.2, save r.2 fs, 1)
  | .del k =>
    let r := reflectDelete frozen c k
    (.bool r.1, r.2, save r.2 fs, 1)

/-- The debounced trigger (`createLazyTimer`, `src/timer.ts`): the closure
holds a single pending deadline. This function runs the trigger over a
time-ordered list of call instants and returns the instants at which the
action fires: a pending deadline that has already passed when the next call
arrives has fired; otherwise `clearTimeout` cancels it, and `setTimeout`
arms a fresh deadline `delay` after the call. A still-pending deadline at
the end of the run fires then. -/
def lazyTimerRun (delay : Nat) : Option Nat → List Nat → List Nat
  | some d, [] => [d]
  | none, [] => []
  | some d, t :: ts =>
    if d ≤ t then d :: lazyTimerRun delay (some (t + delay)) ts
    else lazyTimerRun delay (some (t + delay)) ts
  | none, t :: ts => lazyTimerRun delay (some (t + delay)) ts

/-- The trigger as returned by `createLazyTimer`: no deadline pending
initially. -/
def createLazyTimer (delay : Nat) (calls : List Nat) : List Nat :=
  lazyTimerRun delay none calls

/-- The strings handed to `fsp.writeFile` by successive async mutations, in
the order the writes are started: each mutation serializes the content as
mutated so far (`saveAsync`, lines 138–141, captures `this.content` at
invocation time). -/
def asyncWriteInits (codec : Codec) (frozen : List Key) :
    List Mut → Obj → List String
  | [], _ => []
  | m :: ms, c =>
    let r := applyMut frozen m c
    codec.stringify r.2 :: asyncWriteInits codec frozen ms r.2

/-- The on-disk contents after all in-flight async writes settle, given the
order in which the promises complete (`schedule` lists indices into the
initiation list in completion order): each completing write replaces the
file in full, so the last one to complete wins. `saveAsync` imposes no
ordering between overlapping writes, so any completion order is possible. -/
def lastCompleted (inits : List String) (schedule : List Nat) : Option String :=
  (schedule.filterMap fun i => inits.get? i).getLast?

/-! ### A concrete executable codec

A small structured-text format (`k=v` pairs joined by `;`) standing in for
the default JSON codec in witnesses: fully executable in the kernel. -/

/-- Split a character list on a separator character. -/
def splitOnChar (sep : Char) : List Char → List (List Char)
  | [] => [[]]
  | c :: rest =>
    match splitOnChar sep rest with
    | [] => if c = sep then [[], []] else [[c]]
    | g :: gs => if c = sep then [] :: g :: gs else (c :: g) :: gs

/-- Join character-list groups with a separator character. -/
def joinChar (sep : Char) : List (List Char) → List Char
  | [] => []
  | [g] => g
  | g :: gs => g ++ sep :: joinChar sep gs

/-- Decimal digits of a numeric field value. -/
def natDigits (n : Nat) : List Char :=
  Nat.toDigits 10 n

/-- Read a nonempty all-digit character list back as a number. -/
def digitsToNat : List Char → Option Nat
  | [] => none
  | l =>
    l.foldl
      (fun acc c =>
        match acc with
        | none => none
        | some n => if c.isDigit then some (n * 10 + (c.toNat - 48)) else none)
      (some 0)

/-- Encode one field as `key=value`. -/
def encPair (p : Key × Nat) : List Char :=
  p.1.data ++ '=' :: natDigits p.2

/-- Decode one `key=value` group. -/
def decPair (l : List Char) : Except String (Key × Nat) :=
  match splitOnChar '=' l with
  | [k, v] =>
    match digitsToNat v with
    | some n => .ok (String.mk k, n)
    | none => .error "bad number"
  | _ => .error "bad pair"

/-- The concrete stringifier: fields joined by `;`. -/
def toyStringify (c : Obj) : String :=
  String.mk (joinChar ';' (c.map encPair))

/-- The concrete parser; fails (`FormatError`) on malformed text. -/
def toyParse (s : String) : Except String Obj :=
  match s.data with
  | [] => .ok []
  | l => (splitOnChar ';' l).mapM decPair

/-- The concrete codec used by witnesses. -/
def toyCodec : Codec :=
  { stringify := toyStringify, parse := toyParse }

/-- A codec whose parse never recovers what stringify produced; it
distinguishes "the default content itself" from a parse-of-stringify
round-trip. -/
def constCodec : Codec :=
  { stringify := fun _ => "blob", parse := fun _ => .error "unparseable" }

/-! ### Supporting lemmas -/

/-- Reading back the entry just written by an associative update. -/
theorem lookup_setEntry (p : Path) (s : String) (files : List (Path × String)) :
    (setEntry p s files).lookup p = some s := by
  induction files with
  | nil => simp [setEntry, List.lookup]
  | cons hd t ih =>
    obtain ⟨q, t'⟩ := hd
    by_cases hq : q = p
    · subst hq
      simp [setEntry, List.lookup]
    · have hpq : (p == q) = false := beq_eq_false_iff_ne.mpr (Ne.symm hq)
      simpa [setEntry, hq, List.lookup, hpq] using ih

/-- After a successful run of one or more mutations under the `sync`
strategy, the file holds exactly the serialization of the final content:
the last mutation's write is the last write performed. -/
theorem runSync_file (codec : Codec) (frozen : List Key) (fl : Path) :
    ∀ (ms : List Mut) (c : Obj) (fs : FS) (cf : Obj) (fsf : FS), ms ≠ [] →
      runSync codec frozen fl ms c fs = .ok (cf, fsf) →
      fsf.readFile fl = some (codec.stringify cf) := by
  intro ms
  induction ms with
  | nil => intro c fs cf fsf hne; exact absurd rfl hne
  | cons m ms ih =>
    intro c fs cf fsf _ hrun
    cases hw : saveSync codec fl (applyMut frozen m c).2 fs with
    | error e =>
      have : runSync codec frozen fl (m :: ms) c fs = .error e := by
        simp [runSync, mutateSync, hw]
      rw [this] at hrun
      cases hrun
    | ok fs1 =>
      have hstep : runSync codec frozen fl (m :: ms) c fs =
          runSync codec frozen fl ms (applyMut frozen m c).2 fs1 := by
        simp [runSync, mutateSync, hw]
      rw [hstep] at hrun
      by_cases hms : ms = []
      · subst hms
        simp only [runSync, Except.ok.injEq, Prod.mk.injEq] at hrun
        obtain ⟨hc, hfs⟩ := hrun
        subst hc; subst hfs
        unfold saveSync FS.writeFile at hw
        by_cases hd : dirname fl ∈ fs.dirs
        · rw [if_pos hd] at hw
          simp only [Except.ok.injEq] at hw
          subst hw
          simpa [FS.readFile] using lookup_setEntry fl _ fs.files
        · rw [if_neg hd] at hw
          cases hw
      · exact ih (applyMut frozen m c).2 fs1 cf fsf hms hrun

/-- Under a burst whose calls are each spaced less than `delay` apart, a
deadline armed by the first call never passes before the next call, so each
call cancels its predecessor's deadline and only the last call's deadline
fires. -/
theorem lazyTimerRun_burst (delay : Nat) :
    ∀ (ts : List Nat) (t : Nat),
      List.Chain' (fun a b => b < a + delay) (t :: ts) →
      lazyTimerRun delay (some (t + delay)) ts = [ts.getLastD t + delay] := by
  intro ts
  induction ts with
  | nil => intro t _; rfl
  | cons u us ih =>
    intro t hch
    have h1 : u < t + delay := (List.chain'_cons.mp hch).1
    have h2 : List.Chain' (fun a b => b < a + delay) (u :: us) :=
      (List.chain'_cons.mp hch).2
    have hle : ¬ t + delay ≤ u := by omega
    simp only [lazyTimerRun, if_neg hle]
    rw [List.getLastD_cons]
    exact ih u h2

/-! ### Claim theorems -/

/-- C1: under the Sync save strategy, after every sequence of one or more
field assignments/deletions through the wrapped view that returns
successfully, parsing the file's contents with the codec yields a value
equal to the current live value (the mutation is applied in memory first,
then the full serialization is written before the mutation returns); the
codec must invert its own serialization at that value. -/
theorem sync_write_on_mutation (codec : Codec) (frozen : List Key) (fl : Path)
    (ms : List Mut) (c₀ : Obj) (fs₀ : FS) (c₁ : Obj) (fs₁ : FS)
    (hne : ms ≠ [])
    (hrun : runSync codec frozen fl ms c₀ fs₀ = .ok (c₁, fs₁))
    (hrt : codec.parse (codec.stringify c₁) = .ok c₁) :
    ∃ s, fs₁.readFile fl = some s ∧ codec.parse s = .ok c₁ :=
  ⟨codec.stringify c₁, runSync_file codec frozen fl ms c₀ fs₀ c₁ fs₁ hne hrun, hrt⟩

/-- Witness for C1: a concrete one-mutation run under Sync, whose file
parses back to the live value. -/
theorem sync_write_on_mutation_w :
    ∃ s, FS.readFile ⟨[[]], [(["cfg"], "a=1")]⟩ ["cfg"] = some s ∧
      toyCodec.parse s = .ok [("a", 1)] :=
  sync_write_on_mutation toyCodec [] ["cfg"] [.set "a" 1] [] ⟨[[]], []⟩
    [("a", 1)] ⟨[[]], [(["cfg"], "a=1")]⟩ (by decide) (by decide) (by decide)

/-- C2: when the file is absent at construction, the stringified default
content is written to the path (creating the file), and the content of the
handle is the `target` value itself — the conclusion returns `target`
untouched, not a parse of what was written. -/
theorem bootstrap_absent_default (codec : Codec) (target : Obj) (fl : Path)
    (recursive : Bool) (fs : FS)
    (hne : fs.existsP fl = false)
    (hdir : dirname fl ∈ fs.dirs) :
    ∃ fs', bootstrap codec target fl recursive fs = .ok (target, fs') ∧
      fs'.readFile fl = some (codec.stringify target) := by
  refine ⟨⟨fs.dirs, setEntry fl (codec.stringify target) fs.files⟩, ?_, ?_⟩
  · have hpar : fs.existsP (dirname fl) = true := by
      unfold FS.existsP
      simp [hdir]
    unfold bootstrap
    simp [hne, hpar, FS.writeFile, hdir]
  · simpa [FS.readFile] using lookup_setEntry fl _ fs.files

/-- Witness for C2, with a codec that cannot parse back anything it wrote:
the returned content is still the default value itself. -/
theorem bootstrap_absent_default_w :
    constCodec.parse (constCodec.stringify [("a", 1)]) ≠ .ok [("a", 1)] ∧
    (∃ fs', bootstrap constCodec [("a", 1)] ["cfg"] false ⟨[[]], []⟩ =
        .ok ([("a", 1)], fs') ∧
      fs'.readFile ["cfg"] = some (constCodec.stringify [("a", 1)])) :=
  ⟨by decide,
    bootstrap_absent_default constCodec [("a", 1)] ["cfg"] false ⟨[[]], []⟩
      (by decide) (by decide)⟩

/-- C3: when the file exists at construction, its entire text is read and
run through the codec: if the parse succeeds, its result — not the default
content — becomes the handle's content, with the filesystem untouched; if
the parse fails, construction propagates the format error and no
content/filesystem pair is produced, so no view exists and no partial state
escapes. -/
theorem bootstrap_existing_parse (codec : Codec) (target : Obj) (fl : Path)
    (recursive : Bool) (fs : FS) (s : String)
    (hex : fs.existsP fl = true)
    (hread : fs.readFile fl = some s) :
    (∀ c, codec.parse s = .ok c →
      bootstrap codec target fl recursive fs = .ok (c, fs)) ∧
    (∀ e, codec.parse s = .error e →
      bootstrap codec target fl recursive fs = .error (.format e)) := by
  constructor
  · intro c hparse
    unfold bootstrap
    simp [hex, hread, hparse]
  · intro e hparse
    unfold bootstrap
    simp [hex, hread, hparse]

/-- Witness for C3: a parseable file becomes the content (here `a=2`,
distinct from the empty default), and a file the concrete codec rejects
aborts construction with the format error. -/
theorem bootstrap_existing_parse_w :
    bootstrap toyCodec [] ["cfg"] false ⟨[[]], [(["cfg"], "a=2")]⟩ =
      .ok ([("a", 2)], ⟨[[]], [(["cfg"], "a=2")]⟩) ∧
    bootstrap toyCodec [] ["cfg"] false ⟨[[]], [(["cfg"], "x")]⟩ =
      .error (.format "bad pair") := by
  have h1 := bootstrap_existing_parse toyCodec [] ["cfg"] false
    ⟨[[]], [(["cfg"], "a=2")]⟩ "a=2" (by decide) (by decide)
  have h2 := bootstrap_existing_parse toyCodec [] ["cfg"] false
    ⟨[[]], [(["cfg"], "x")]⟩ "x" (by decide) (by decide)
  exact ⟨h1.1 [("a", 2)] (by decide), h2.2 "bad pair" (by decide)⟩

/-- C4: for a burst of `k ≥ 1` trigger calls each spaced less than `delay`
apart, the action fires exactly once, exactly `delay` after the last call
of the burst: each call cancels the previously armed deadline (of which
there is at most one) and arms a fresh one. -/
theorem debounce_single_fire (delay t : Nat) (ts : List Nat)
    (hburst : List.Chain' (fun a b => b < a + delay) (t :: ts)) :
    createLazyTimer delay (t :: ts) = [ts.getLastD t + delay] := by
  unfold createLazyTimer
  simp only [lazyTimerRun]
  exact lazyTimerRun_burst delay ts t hburst

/-- Witness for C4: three calls 3 ms apart with a 5 ms delay fire once, at
11 ms — 5 ms after the last call. -/
theorem debounce_single_fire_w : createLazyTimer 5 [0, 3, 6] = [11] :=
  debounce_single_fire 5 0 [3, 6] (by norm_num [List.chain'_cons])

/-- C5: under the Sync strategy, when the write triggered by a mutation
fails, the error is what the mutation returns, and the in-memory content
has already been mutated and is not rolled back. -/
theorem sync_write_failure (codec : Codec) (frozen : List Key) (fl : Path)
    (m : Mut) (c : Obj) (fs : FS) (e : IOErr)
    (hw : fs.writeFile fl (codec.stringify (applyMut frozen m c).2) = .error e) :
    (mutateSync codec frozen fl m c fs).2 = .error e ∧
    (mutateSync codec frozen fl m c fs).1.2 = (applyMut frozen m c).2 := by
  exact ⟨by simp [mutateSync, saveSync, hw], rfl⟩

/-- Witness for C5: a write to a path with no parent directory fails, yet
the assigned field is present in memory. -/
theorem sync_write_failure_w :
    (mutateSync toyCodec [] ["cfg"] (.set "a" 1) [] ⟨[], []⟩).2 =
      .error (.noDir []) ∧
    (mutateSync toyCodec [] ["cfg"] (.set "a" 1) [] ⟨[], []⟩).1.2 = [("a", 1)] := by
  have h := sync_write_failure toyCodec [] ["cfg"] (.set "a" 1) [] ⟨[], []⟩
    (.noDir []) (by decide)
  exact ⟨h.1, h.2.trans (by decide)⟩

/-- C6: under the Async (and Lazy, whose deadline action is the same
`saveAsync`) strategy, a failing write is caught and discarded: the
mutation returns normally with the mutated content — the return type has no
error component, so no exception can reach the caller — and the filesystem
is left as it was, with nothing recording the failure. -/
theorem async_error_silenced (codec : Codec) (frozen : List Key) (fl : Path)
    (m : Mut) (c : Obj) (fs : FS) (e : IOErr)
    (hw : fs.writeFile fl (codec.stringify (applyMut frozen m c).2) = .error e) :
    mutateAsync codec frozen fl m c fs =
      ((applyMut frozen m c).1, (applyMut frozen m c).2, fs) := by
  simp [mutateAsync, saveAsync, hw]

/-- Witness for C6: the same failing write under Async returns normally
and leaves the filesystem untouched. -/
theorem async_error_silenced_w :
    mutateAsync toyCodec [] ["cfg"] (.set "a" 1) [] ⟨[], []⟩ =
      (true, [("a", 1)], ⟨[], []⟩) := by
  have h := async_error_silenced toyCodec [] ["cfg"] (.set "a" 1) [] ⟨[], []⟩
    (.noDir []) (by decide)
  exact h.trans (by decide)

/-- C7: reads, existence checks and key enumeration on the wrapped view
are the raw `Reflect` operations on the content: they return exactly what
the raw value yields, leave the content and the filesystem unchanged, and
invoke the save strategy zero times — whatever strategy is bound. -/
theorem read_transparency (save : Obj → FS → FS) (frozen : List Key)
    (c : Obj) (fs : FS) (k : Key) :
    viewStep save frozen (.get k) c fs = (.val (reflectGet c k), c, fs, 0) ∧
    viewStep save frozen (.has k) c fs = (.bool (reflectHas c k), c, fs, 0) ∧
    viewStep save frozen .keys c fs = (.keyList (reflectOwnKeys c), c, fs, 0) :=
  ⟨rfl, rfl, rfl⟩

/-- C8: with the file absent, the immediate parent missing and the
grandparent present: `recursive := true` makes construction succeed with
the parent directory existing afterward, while `recursive := false` makes
construction fail with the write's `IOErr`, producing no view. -/
theorem recursive_dir_creation (codec : Codec) (target : Obj) (fl : Path) (fs : FS)
    (hfile : fs.existsP fl = false)
    (hpar : fs.existsP (dirname fl) = false)
    (hgp : dirname (dirname fl) ∈ fs.dirs) :
    (∃ fs', bootstrap codec target fl true fs = .ok (target, fs') ∧
      fs'.existsP (dirname fl) = true) ∧
    bootstrap codec target fl false fs = .error (.io (.noDir (dirname fl))) := by
  have hpd : dirname fl ∉ fs.dirs := by
    unfold FS.existsP at hpar
    simp only [Bool.or_eq_false_iff, decide_eq_false_iff_not] at hpar
    exact hpar.1
  constructor
  · refine ⟨⟨dirname fl :: fs.dirs, setEntry fl (codec.stringify target) fs.files⟩,
      ?_, ?_⟩
    · unfold bootstrap
      simp [hfile, hpar, FS.mkdir, hgp, FS.writeFile, Except.mapError, Except.map,
        List.mem_cons]
    · unfold FS.existsP
      simp
  · unfold bootstrap
    simp [hfile, FS.writeFile, hpd]

/-- Witness for C8: creating `d/cfg` with only the root directory present
succeeds when `recursive` is set and fails with an `IOErr` otherwise. -/
theorem recursive_dir_creation_w :
    (∃ fs', bootstrap toyCodec [] ["d", "cfg"] true ⟨[[]], []⟩ = .ok ([], fs') ∧
      fs'.existsP ["d"] = true) ∧
    bootstrap toyCodec [] ["d", "cfg"] false ⟨[[]], []⟩ =
      .error (.io (.noDir ["d"])) :=
  recursive_dir_creation toyCodec [] ["d", "cfg"] ⟨[[]], []⟩
    (by decide) (by decide) (by decide)

/-- C9 counterexample: the claim — every completion order of the in-flight
async writes leaves the newest serialized content on disk — is false for
the two-mutation sequence setting `a` to `1` then `2`: completing the
writes in the order second-then-first leaves the older content on disk. -/
theorem async_serialization_cex :
    ¬ (∀ schedule : List Nat,
        schedule.Perm
          (List.range
            (asyncWriteInits toyCodec [] [.set "a" 1, .set "a" 2] []).length) →
        lastCompleted (asyncWriteInits toyCodec [] [.set "a" 1, .set "a" 2] [])
            schedule =
          (asyncWriteInits toyCodec [] [.set "a" 1, .set "a" 2] []).getLast?) := by
  intro h
  have hx := h [1, 0] (by decide)
  revert hx
  decide

/-- C9 amended: async in-flight writes are not serialized — `saveAsync`
starts each write independently, so there is a mutation sequence and a
completion order of all its writes under which the write carrying the
oldest serialized content completes last and the disk ends with that stale
content rather than the newest. -/
theorem async_writes_unserialized :
    ∃ (ms : List Mut) (schedule : List Nat),
      schedule.Perm (List.range (asyncWriteInits toyCodec [] ms []).length) ∧
      lastCompleted (asyncWriteInits toyCodec [] ms []) schedule =
        (asyncWriteInits toyCodec [] ms []).head? ∧
      (asyncWriteInits toyCodec [] ms []).head? ≠
        (asyncWriteInits toyCodec [] ms []).getLast? :=
  ⟨[.set "a" 1, .set "a" 2], [1, 0], by decide, by decide, by decide⟩

/-- C10: the proxy traps invoke the save strategy unconditionally: when the
underlying `Reflect` operation fails on a frozen key (reporting `false`,
content unchanged), the strategy is still invoked exactly once on the
unchanged content; under Sync this serializes and writes that unchanged
content. -/
theorem save_on_failed_mutation (save : Obj → FS → FS) (codec : Codec)
    (frozen : List Key) (fl : Path) (c : Obj) (fs : FS) (k : Key) (v : Nat)
    (hk : k ∈ frozen) :
    viewStep save frozen (.set k v) c fs = (.bool false, c, save c fs, 1) ∧
    viewStep save frozen (.del k) c fs = (.bool false, c, save c fs, 1) ∧
    mutateSync codec frozen fl (.set k v) c fs =
      ((false, c), fs.writeFile fl (codec.stringify c)) := by
  refine ⟨?_, ?_, ?_⟩ <;>
    simp [viewStep, mutateSync, saveSync, applyMut, reflectSet, reflectDelete, hk]

/-- Witness for C10: assigning to the frozen key `a` fails, yet the save
strategy runs once and the Sync write carries the unchanged content. -/
theorem save_on_failed_mutation_w :
    viewStep (fun _ fs => fs) ["a"] (.set "a" 1) [("b", 2)] ⟨[], []⟩ =
      (.bool false, [("b", 2)], ⟨[], []⟩, 1) ∧
    mutateSync toyCodec ["a"] ["cfg"] (.set "a" 1) [("b", 2)] ⟨[[]], []⟩ =
      ((false, [("b", 2)]),
        FS.writeFile ⟨[[]], []⟩ ["cfg"] (toyCodec.stringify [("b", 2)])) := by
  have h1 := save_on_failed_mutation (fun _ fs => fs) toyCodec ["a"] ["cfg"]
    [("b", 2)] (⟨[], []⟩ : FS) "a" 1 (by decide)
  have h2 := save_on_failed_mutation (fun _ fs => fs) toyCodec ["a"] ["cfg"]
    [("b", 2)] (⟨[[]], []⟩ : FS) "a" 1 (by decide)
  exact ⟨h1.1, h2.2.2⟩

end ObjectSync
